import Mathlib

/-!
Shallow embedding of the `merkle-tree-lib` Rust crate (sweetim/merkle-tree).

Bytes are modelled as `Nat` values below 256 in `List Nat`; 32-bit words as
`Nat` reduced modulo 2^32.  Strings are modelled as Lean `String`/`List Char`
(all strings involved are ASCII, so Rust byte indexing and character
indexing coincide).
-/

set_option maxRecDepth 100000
set_option maxHeartbeats 4000000

namespace MerkleTreeLib

/-! ## SHA-256 (the `sha2` crate's `Sha256`, modelled from the standard) -/

namespace Sha256

def w32 (n : Nat) : Nat := n % 4294967296

def rotr (n x : Nat) : Nat := w32 ((x >>> n) ||| (x <<< (32 - n)))

def bigS0 (x : Nat) : Nat := (rotr 2 x) ^^^ (rotr 13 x) ^^^ (rotr 22 x)
def bigS1 (x : Nat) : Nat := (rotr 6 x) ^^^ (rotr 11 x) ^^^ (rotr 25 x)
def smallS0 (x : Nat) : Nat := (rotr 7 x) ^^^ (rotr 18 x) ^^^ (x >>> 3)
def smallS1 (x : Nat) : Nat := (rotr 17 x) ^^^ (rotr 19 x) ^^^ (x >>> 10)

/-- The 64 SHA-256 round constants, in decimal. -/
def K : List Nat :=
  [1116352408, 1899447441, 3049323471, 3921009573, 961987163, 1508970993,
   2453635748, 2870763221, 3624381080, 310598401, 607225278, 1426881987,
   1925078388, 2162078206, 2614888103, 3248222580, 3835390401, 4022224774,
   264347078, 604807628, 770255983, 1249150122, 1555081692, 1996064986,
   2554220882, 2821834349, 2952996808, 3210313671, 3336571891, 3584528711,
   113926993, 338241895, 666307205, 773529912, 1294757372, 1396182291,
   1695183700, 1986661051, 2177026350, 2456956037, 2730485921, 2820302411,
   3259730800, 3345764771, 3516065817, 3600352804, 4094571909, 275423344,
   430227734, 506948616, 659060556, 883997877, 958139571, 1322822218,
   1537002063, 1747873779, 1955562222, 2024104815, 2227730452, 2361852424,
   2428436474, 2756734187, 3204031479, 3329325298]

/-- The eight SHA-256 initial hash words, in decimal. -/
def H0 : List Nat :=
  [1779033703, 3144134277, 1013904242, 2773480762,
   1359893119, 2600822924, 528734635, 1541459225]

/-- Message padding: append 0x80, zeros to 56 mod 64, then the bit length
as 8 big-endian bytes. -/
def pad (msg : List Nat) : List Nat :=
  let l := msg.length
  let zeros := (64 - (l + 9) % 64) % 64
  let bitLen := 8 * l
  msg ++ [0x80] ++ List.replicate zeros 0 ++
    [w32 (bitLen >>> 56) % 256, (bitLen >>> 48) % 256, (bitLen >>> 40) % 256,
     (bitLen >>> 32) % 256, (bitLen >>> 24) % 256, (bitLen >>> 16) % 256,
     (bitLen >>> 8) % 256, bitLen % 256]

/-- Split a list into consecutive chunks of `n` elements (accumulator kept
reversed; structural recursion so the kernel can evaluate it). -/
def chunksAux (n : Nat) : List α → List α → List (List α)
  | [], acc => if acc.isEmpty then [] else [acc.reverse]
  | x :: xs, acc =>
    if acc.length + 1 == n then (x :: acc).reverse :: chunksAux n xs []
    else chunksAux n xs (x :: acc)

/-- Split a list into consecutive chunks of `n` elements; the last chunk may
be shorter. -/
def chunksOf (n : Nat) (l : List α) : List (List α) := chunksAux n l []

/-- Four big-endian bytes as one 32-bit word. -/
def wordOfBytes : List Nat → Nat
  | [b0, b1, b2, b3] => ((b0 <<< 24) ||| (b1 <<< 16) ||| (b2 <<< 8) ||| b3)
  | _ => 0

/-- Extend the block words to the 64 schedule words, the accumulator kept
most-recent-first so each step reads w[i-2], w[i-7], w[i-15], w[i-16] near
the front. -/
def extendWAux : Nat → List Nat → List Nat
  | 0, rws => rws
  | k + 1, rws =>
    let w := w32 (rws.getD 15 0 + smallS0 (rws.getD 14 0) +
                  rws.getD 6 0 + smallS1 (rws.getD 1 0))
    extendWAux k (w :: rws)

/-- Extend the 16 block words to 64 schedule words. -/
def extendW (k : Nat) (ws : List Nat) : List Nat :=
  (extendWAux k ws.reverse).reverse

/-- One round of the compression function on the 8-word working state. -/
def round (st : List Nat) (kw : Nat × Nat) : List Nat :=
  match st with
  | [a, b, c, d, e, f, g, h] =>
    let t1 := w32 (h + bigS1 e + ((e &&& f) ^^^ ((0xffffffff ^^^ e) &&& g)) +
                   kw.1 + kw.2)
    let t2 := w32 (bigS0 a + ((a &&& b) ^^^ (a &&& c) ^^^ (b &&& c)))
    [w32 (t1 + t2), a, b, c, w32 (d + t1), e, f, g]
  | other => other

/-- Compress one 64-byte block into the running hash state. -/
def compress (h : List Nat) (block : List Nat) : List Nat :=
  let ws := extendW 48 ((chunksOf 4 block).map wordOfBytes)
  let fin := (K.zip ws).foldl round h
  (h.zip fin).map (fun p => w32 (p.1 + p.2))

/-- A 32-bit word as four big-endian bytes. -/
def bytesOfWord (w : Nat) : List Nat :=
  [(w >>> 24) % 256, (w >>> 16) % 256, (w >>> 8) % 256, w % 256]

/-- SHA-256 of a byte list, as a 32-byte list. -/
def sha256 (msg : List Nat) : List Nat :=
  (((chunksOf 64 (pad msg)).foldl compress H0).map bytesOfWord).flatten

end Sha256

/-- UTF-8 bytes of a string (all strings in the repository are ASCII, for
which a character's code point is its single byte). -/
def strBytes (s : String) : List Nat := s.data.map Char.toNat

/-- Lowercase hex digit for a value below 16 (`hex::encode`). -/
def hexDigit (n : Nat) : Char :=
  if n < 10 then Char.ofNat (48 + n) else Char.ofNat (87 + n)

/-- `hex::encode`: a byte list rendered as a lowercase hex string. -/
def hexEncode (bs : List Nat) : String :=
  ⟨(bs.map (fun b => [hexDigit (b / 16), hexDigit (b % 16)])).flatten⟩

/-- `tagged_hash` (src/merkle-tree-lib/src/lib.rs:400):
SHA-256 of the tag, then SHA-256 over tag-hash ‖ tag-hash ‖ input. -/
def tagged_hash (tag : String) (input : List Nat) : List Nat :=
  let tag_hash := Sha256.sha256 (strBytes tag)
  Sha256.sha256 (tag_hash ++ tag_hash ++ input)

/-- Value of a lowercase hex digit character. -/
def hexCharVal (c : Char) : Nat :=
  if c.toNat ≤ 57 then c.toNat - 48 else c.toNat - 87

/-- Decode a lowercase hex string back into bytes (inverse of `hexEncode`). -/
def hexDecode (s : String) : List Nat :=
  (Sha256.chunksOf 2 s.data).map fun p =>
    match p with
    | [hi, lo] => 16 * hexCharVal hi + hexCharVal lo
    | _ => 0

/-! ## The tree data model (src/merkle-tree-lib/src/lib.rs) -/

/-- `NodeDirection` (lib.rs:70). -/
inductive NodeDirection : Type where
  | Left
  | Right
  | Root
deriving DecidableEq, Repr

/-- `NodeDirection::value` (lib.rs:78): the `u8` direction code. -/
def NodeDirection.value : NodeDirection → Nat
  | .Left => 0
  | .Right => 1
  | .Root => 2

/-- `TraversePath` (lib.rs:97): two parallel vectors of step hashes (hex
strings) and directions. -/
structure TraversePath : Type where
  hashes : List String
  directions : List NodeDirection
deriving DecidableEq, Repr

/-- `TraversePath::new` (lib.rs:104). -/
def TraversePath.new : TraversePath := ⟨[], []⟩

/-- `TraversePath::add_step` (lib.rs:117): push one (hash, direction) step. -/
def TraversePath.add_step (p : TraversePath) (hash : String)
    (direction : NodeDirection) : TraversePath :=
  ⟨p.hashes ++ [hash], p.directions ++ [direction]⟩

/-- `TraversePath::to_vec` (lib.rs:128): the path as (hex hash, direction
code) tuples. -/
def TraversePath.to_vec (p : TraversePath) : List (String × Nat) :=
  (p.hashes.zip p.directions).map fun hd => (hd.1, hd.2.value)

/-- `MerkleNode<T>` (lib.rs:6): hash, optional children, optional payload.
The struct's fields are private and its only constructors are `new_leaf`
(both children absent) and `new_branch` (both children present), so every
reachable node is one of these two shapes; the embedding makes the two
shapes the two constructors, keeping `user_data` on both as the struct
does. -/
inductive MerkleNode (T : Type) : Type where
  | leaf (hash : List Nat) (user_data : Option T)
  | branch (hash : List Nat) (left : MerkleNode T) (right : MerkleNode T)
      (user_data : Option T)
deriving DecidableEq, Repr

variable {T : Type}

/-- The `hash` field. -/
def MerkleNode.hash : MerkleNode T → List Nat
  | .leaf h _ => h
  | .branch h _ _ _ => h

/-- The `user_data` field. -/
def MerkleNode.user_data : MerkleNode T → Option T
  | .leaf _ d => d
  | .branch _ _ _ d => d

/-- The `left` field. -/
def MerkleNode.left : MerkleNode T → Option (MerkleNode T)
  | .leaf _ _ => none
  | .branch _ l _ _ => some l

/-- The `right` field. -/
def MerkleNode.right : MerkleNode T → Option (MerkleNode T)
  | .leaf _ _ => none
  | .branch _ _ r _ => some r

/-- Number of nodes in a subtree (termination measure for the stack walk). -/
def MerkleNode.size : MerkleNode T → Nat
  | .leaf _ _ => 1
  | .branch _ l r _ => 1 + l.size + r.size

/-- `MerkleNode::new_leaf` (lib.rs:24). -/
def MerkleNode.new_leaf (hash : List Nat) (user_data : Option T) :
    MerkleNode T :=
  .leaf hash user_data

/-- `MerkleNode::new_branch` (lib.rs:42): hash is the tagged hash of the
children's concatenated hashes, left bytes first. -/
def MerkleNode.new_branch (left right : MerkleNode T) (tag : String) :
    MerkleNode T :=
  .branch (tagged_hash tag (left.hash ++ right.hash)) left right none

/-- The `MerkleTreeData` trait (lib.rs:148). -/
class MerkleTreeData (T : Type) : Type where
  serialize : T → List Nat
  mermaid_node_label : T → String

export MerkleTreeData (serialize)

/-- `MerkleTree<T>` (lib.rs:137): an optional root node. -/
structure MerkleTree (T : Type) : Type where
  rootNode : Option (MerkleNode T)

/-! ## Building (lib.rs:164) -/

/-- `chunks_mut(2)` on a vector: consecutive chunks of two, the last chunk
possibly a singleton. -/
def chunksOf2 : List α → List (List α)
  | [] => []
  | [a] => [[a]]
  | a :: b :: rest => [a, b] :: chunksOf2 rest

/-- The pairing closure of the build loop (lib.rs:182): a two-node chunk
becomes a branch of the two, a one-node chunk a branch of the node with a
clone of itself, and any other chunk shape hits the `panic!()` arm,
modelled as `none`. -/
def pairChunk (tag : String) : List (MerkleNode T) → Option (MerkleNode T)
  | [l, r] => some (MerkleNode.new_branch l r tag)
  | [l] => some (MerkleNode.new_branch l l tag)
  | _ => none

/-- One level-reduction pass exactly as the source runs it: chunk by two,
pair each chunk, propagating the panic arm. -/
def buildLevelRust (tag : String) (nodes : List (MerkleNode T)) :
    Option (List (MerkleNode T)) :=
  (chunksOf2 nodes).mapM (pairChunk tag)

/-- One level-reduction pass, total form (the panic arm is unreachable:
see the equivalence with `buildLevelRust`). -/
def buildLevel (tag : String) : List (MerkleNode T) → List (MerkleNode T)
  | [] => []
  | [l] => [MerkleNode.new_branch l l tag]
  | l :: r :: rest => MerkleNode.new_branch l r tag :: buildLevel tag rest

/-- The `while nodes.len() > 1` loop (lib.rs:179), fuel-indexed so the
kernel can evaluate it; `nodes.length` fuel always suffices (each pass
maps n > 1 nodes to ⌈n/2⌉ < n nodes). -/
def buildLoopAux (tag : String) : Nat → List (MerkleNode T) →
    List (MerkleNode T)
  | 0, nodes => nodes
  | fuel + 1, nodes =>
    if 1 < nodes.length then buildLoopAux tag fuel (buildLevel tag nodes)
    else nodes

/-- The build loop with its sufficient fuel. -/
def buildLoop (tag : String) (nodes : List (MerkleNode T)) :
    List (MerkleNode T) :=
  buildLoopAux tag nodes.length nodes

/-- The leaf level (lib.rs:169): each record hashed under the leaf tag, in
input order, with the record attached. -/
def leavesOf [MerkleTreeData T] (tag_leaf : String) (input : List T) :
    List (MerkleNode T) :=
  input.map fun data =>
    MerkleNode.new_leaf (tagged_hash tag_leaf (serialize data)) (some data)

/-- `MerkleTree::build` (lib.rs:164): empty input gives an empty tree; any
other input is mapped to leaves in order, then reduced level by level.
The source takes `nodes[0]` of the final level; `[0]?` models that
indexing, with `none` standing for the (unreachable) out-of-bounds panic. -/
def MerkleTree.build [MerkleTreeData T] (tag_leaf tag_branch : String)
    (input : List T) : MerkleTree T :=
  if input.isEmpty then ⟨none⟩
  else ⟨(buildLoop tag_branch (leavesOf tag_leaf input))[0]?⟩

/-- The build loop with the panic arm propagated (for the safety claim). -/
def buildLoopRustAux (tag : String) : Nat → List (MerkleNode T) →
    Option (List (MerkleNode T))
  | 0, nodes => some nodes
  | fuel + 1, nodes =>
    if 1 < nodes.length then
      (buildLevelRust tag nodes).bind (buildLoopRustAux tag fuel)
    else some nodes

/-- `MerkleTree::build` with every partial operation (the chunk panic arm
and the final `nodes[0]` indexing) surfaced as `Option`. -/
def MerkleTree.buildRust [MerkleTreeData T] (tag_leaf tag_branch : String)
    (input : List T) : Option (MerkleTree T) :=
  if input.isEmpty then some ⟨none⟩
  else
    (buildLoopRustAux tag_branch (leavesOf tag_leaf input).length
        (leavesOf tag_leaf input)).bind fun final =>
      final[0]?.map fun node => ⟨some node⟩

/-- `MerkleTree::root` (lib.rs:200): the root hash as lowercase hex. -/
def MerkleTree.root (t : MerkleTree T) : Option String :=
  t.rootNode.map fun node => hexEncode node.hash

/-! ## The shared stack traversal (lib.rs:215) -/

/-- `TraverseStep` (lib.rs:141): parent (if any), current node, depth from
the root, and the direction taken from the parent.  The source's `level`
is a `u32`; depths here never approach 2^32, so `Nat` is used. -/
structure TraverseStep (T : Type) : Type where
  parent_node : Option (MerkleNode T)
  current_node : MerkleNode T
  level : Nat
  direction : NodeDirection

/-- The loop body's stack update (lib.rs:229): push the right child first,
then the left child, so the left child pops first. -/
def pushChildren (step : TraverseStep T) (stack : List (TraverseStep T)) :
    List (TraverseStep T) :=
  match step.current_node with
  | .leaf _ _ => stack
  | .branch h l r d =>
    { parent_node := some (.branch h l r d), current_node := l,
      level := step.level + 1, direction := .Left } ::
    { parent_node := some (.branch h l r d), current_node := r,
      level := step.level + 1, direction := .Right } :: stack

/-- Total node count referenced from a stack (termination measure). -/
def stackWeight (stack : List (TraverseStep T)) : Nat :=
  (stack.map fun s => s.current_node.size).sum

theorem stackWeight_pushChildren (step : TraverseStep T)
    (stack : List (TraverseStep T)) :
    stackWeight (pushChildren step stack) <
      step.current_node.size + stackWeight stack := by
  cases h : step.current_node with
  | leaf hs d => simp [pushChildren, h, stackWeight, MerkleNode.size]
  | branch hs l r d =>
    simp [pushChildren, h, stackWeight, MerkleNode.size]
    omega

/-- The `while let Some(step) = stack.pop()` loop of `iterate_tree`
(lib.rs:226): emit the mapped step, then push right then left. -/
def iterateTreeGo (map_fn : TraverseStep T → String) :
    List (TraverseStep T) → List String → List String
  | [], output => output
  | step :: rest, output =>
    iterateTreeGo map_fn (pushChildren step rest) (output ++ [map_fn step])
termination_by stack => stackWeight stack
decreasing_by
  have h := stackWeight_pushChildren step rest
  simp only [stackWeight, List.map_cons, List.sum_cons] at h ⊢
  omega

/-- `MerkleTree::iterate_tree` (lib.rs:215): `None` on an empty tree,
otherwise the mapped output of the stack walk seeded with the root at
level 0, direction `Root`. -/
def MerkleTree.iterate_tree (t : MerkleTree T)
    (map_fn : TraverseStep T → String) : Option (List String) :=
  t.rootNode.map fun root =>
    iterateTreeGo map_fn [⟨none, root, 0, .Root⟩] []

/-- Specification-side recursive preorder: a node's step, then the left
subtree's steps, then the right subtree's steps, with parent, depth and
direction recorded. -/
def preorderSteps (parent : Option (MerkleNode T)) :
    MerkleNode T → Nat → NodeDirection → List (TraverseStep T)
  | .leaf h d, level, dir => [⟨parent, .leaf h d, level, dir⟩]
  | .branch h l r d, level, dir =>
    ⟨parent, .branch h l r d, level, dir⟩ ::
      (preorderSteps (some (.branch h l r d)) l (level + 1) .Left ++
       preorderSteps (some (.branch h l r d)) r (level + 1) .Right)

/-! ## Search with authentication path (lib.rs:306) -/

/-- `MerkleTree::search_node_with_path` (lib.rs:318): test the node's own
payload first; on a match return the node with a snapshot of the
accumulated path; otherwise descend left with a (own-hash, Left) step
pushed, then right with a (own-hash, Right) step pushed.  The source
pops the pushed step after a failed recursive call; passing the extended
path only into the recursive call models exactly that backtracking. -/
def searchNodeWithPath (pred : T → Bool) :
    MerkleNode T → TraversePath → Option (MerkleNode T × TraversePath)
  | .leaf h user_data, path =>
    match user_data with
    | some d =>
      if pred d then some (.leaf h user_data, ⟨path.hashes, path.directions⟩)
      else none
    | none => none
  | .branch h left right user_data, path =>
    let hit : Option (MerkleNode T × TraversePath) :=
      match user_data with
      | some d =>
        if pred d then
          some (.branch h left right user_data, ⟨path.hashes, path.directions⟩)
        else none
      | none => none
    match hit with
    | some result => some result
    | none =>
      match searchNodeWithPath pred left
          (path.add_step (hexEncode (MerkleNode.branch h left right
            user_data).hash) .Left) with
      | some result => some result
      | none =>
        searchNodeWithPath pred right
          (path.add_step (hexEncode (MerkleNode.branch h left right
            user_data).hash) .Right)

/-- `MerkleTree::search_with_path` (lib.rs:306): start the node search at
the root with an empty path; `None` on an empty tree. -/
def MerkleTree.search_with_path (t : MerkleTree T) (pred : T → Bool) :
    Option (MerkleNode T × TraversePath) :=
  match t.rootNode with
  | some root => searchNodeWithPath pred root TraversePath.new
  | none => none

/-! ## Path semantics helpers (specification side) -/

/-- The child of a node in a given direction (`Root` selects nothing). -/
def MerkleNode.child : MerkleNode T → NodeDirection → Option (MerkleNode T)
  | .branch _ l _ _, .Left => some l
  | .branch _ _ r _, .Right => some r
  | _, _ => none

/-- Follow a direction list downward from a node. -/
def follow (node : MerkleNode T) : List NodeDirection → Option (MerkleNode T)
  | [] => some node
  | d :: ds => (node.child d).bind fun c => follow c ds

/-- The strict ancestors of the node reached by a direction list, in
root-to-target order (the target itself excluded). -/
def ancestorsAlong (node : MerkleNode T) :
    List NodeDirection → Option (List (MerkleNode T))
  | [] => some []
  | d :: ds => (node.child d).bind fun c =>
      (ancestorsAlong c ds).map fun rest => node :: rest

/-- Every branch node below (and including) this node carries no payload —
the invariant `build` maintains, since `new_branch` sets `user_data` to
`None`. -/
def MerkleNode.payloadOnlyOnLeaves : MerkleNode T → Bool
  | .leaf _ _ => true
  | .branch _ l r d =>
    d.isNone && l.payloadOnlyOnLeaves && r.payloadOnlyOnLeaves

/-! ## String truncation (lib.rs:374) -/

/-- `truncate_middle` (lib.rs:374), over the characters of the string (all
inputs in the repository are ASCII hex, for which Rust's byte indexing
and character indexing coincide). -/
def truncate_middle (input : List Char) (max_len : Nat) : List Char :=
  let len := input.length
  if len ≤ max_len then input
  else
    let half_len := max_len / 2
    let start := input.take half_len
    let finish := input.drop (len - (max_len - half_len))
    start ++ "...".data ++ finish

/-! ## Concrete payloads (lib.rs:473, tests) -/

/-- `UserItem_B` (lib.rs:475): a user id and balance.  The source uses
`u32`; every value involved is far below 2^32, so `Nat` models it. -/
structure UserItem_B : Type where
  id : Nat
  balance : Nat
deriving DecidableEq, Repr

/-- `impl MerkleTreeData for UserItem_B` (lib.rs:480): serialize as the
text `(id,balance)`. -/
instance : MerkleTreeData UserItem_B where
  serialize u :=
    strBytes ("(" ++ toString u.id ++ "," ++ toString u.balance ++ ")")
  mermaid_node_label u :=
    "<br>User ID: " ++ toString u.id ++ "<br>Balance: " ++ toString u.balance

/-- `generate_user_item_b` (lib.rs:492): the five test records. -/
def userItemsB : List UserItem_B :=
  [⟨1, 1111⟩, ⟨2, 2222⟩, ⟨3, 3333⟩, ⟨4, 4444⟩, ⟨5, 5555⟩]

/-- The tree of the proof-of-reserve tests (lib.rs:527). -/
def treeB : MerkleTree UserItem_B :=
  MerkleTree.build "ProofOfReserve_Leaf" "ProofOfReserve_Branch" userItemsB

/-- A two-record tree over the same tags (small concrete instance for
witnesses and counterexamples). -/
def treeB2 : MerkleTree UserItem_B :=
  MerkleTree.build "ProofOfReserve_Leaf" "ProofOfReserve_Branch"
    [⟨1, 1111⟩, ⟨2, 2222⟩]

/-- Leaf hash of the record `(1,1111)` under the proof-of-reserve leaf tag. -/
def leafHashB1 : List Nat :=
  tagged_hash "ProofOfReserve_Leaf" (strBytes "(1,1111)")

/-- Leaf hash of the record `(2,2222)` under the proof-of-reserve leaf tag. -/
def leafHashB2 : List Nat :=
  tagged_hash "ProofOfReserve_Leaf" (strBytes "(2,2222)")

/-- Root hash of `treeB2`: the branch over the two leaf hashes. -/
def rootHashB2 : List Nat :=
  tagged_hash "ProofOfReserve_Branch" (leafHashB1 ++ leafHashB2)

/-! ## The spec's replay algorithm (no verification function exists in
the source; modelled from the spec for the round-trip claim) -/

/-- Modelled from the spec: the claimed proof replay — start from the leaf
hash and combine the running hash with each listed hash bottom-up under
the branch tag, the running hash placed on the side named by the listed
direction (0 = the target was the left child). -/
def replayPath (tag_branch : String) (leaf_hash : List Nat)
    (path : List (String × Nat)) : List Nat :=
  path.foldr
    (fun step cur =>
      if step.2 == 0 then tagged_hash tag_branch (cur ++ hexDecode step.1)
      else tagged_hash tag_branch (hexDecode step.1 ++ cur))
    leaf_hash

/-- Modelled from the spec: the same replay with the opposite reading of
the direction codes (0 = combine with the listed hash on the left). -/
def replayPathSwapped (tag_branch : String) (leaf_hash : List Nat)
    (path : List (String × Nat)) : List Nat :=
  path.foldr
    (fun step cur =>
      if step.2 == 0 then tagged_hash tag_branch (hexDecode step.1 ++ cur)
      else tagged_hash tag_branch (cur ++ hexDecode step.1))
    leaf_hash

/-! ## Lemmas about the build loop -/

theorem buildLevelRust_eq (tag : String) :
    ∀ nodes : List (MerkleNode T),
      buildLevelRust tag nodes = some (buildLevel tag nodes)
  | [] => rfl
  | [l] => rfl
  | l :: r :: rest => by
    have ih := buildLevelRust_eq tag rest
    simp only [buildLevelRust, chunksOf2] at ih ⊢
    rw [List.mapM_cons, ih]
    simp [pairChunk, buildLevel]

theorem length_buildLevel (tag : String) :
    ∀ nodes : List (MerkleNode T),
      (buildLevel tag nodes).length = (nodes.length + 1) / 2
  | [] => by simp [buildLevel]
  | [l] => by simp [buildLevel]
  | l :: r :: rest => by
    have ih := length_buildLevel tag rest
    simp [buildLevel, ih]
    omega

theorem buildLoopAux_length (tag : String) :
    ∀ (fuel : Nat) (nodes : List (MerkleNode T)),
      0 < nodes.length → nodes.length ≤ fuel + 1 →
      (buildLoopAux tag fuel nodes).length = 1
  | 0, nodes, hpos, hle => by
    simp only [buildLoopAux]
    omega
  | fuel + 1, nodes, hpos, hle => by
    rw [buildLoopAux]
    split
    · have hlen := length_buildLevel tag nodes
      exact buildLoopAux_length tag fuel (buildLevel tag nodes)
        (by omega) (by omega)
    · omega

theorem buildLoopRustAux_eq (tag : String) :
    ∀ (fuel : Nat) (nodes : List (MerkleNode T)),
      buildLoopRustAux tag fuel nodes = some (buildLoopAux tag fuel nodes)
  | 0, nodes => rfl
  | fuel + 1, nodes => by
    rw [buildLoopRustAux, buildLoopAux, buildLevelRust_eq]
    split
    · exact buildLoopRustAux_eq tag fuel (buildLevel tag nodes)
    · rfl

theorem buildLoop_length [MerkleTreeData T] (tag_branch : String)
    (nodes : List (MerkleNode T)) (hpos : 0 < nodes.length) :
    (buildLoop tag_branch nodes).length = 1 :=
  buildLoopAux_length tag_branch nodes.length nodes hpos (by omega)

theorem buildRust_eq [MerkleTreeData T] (tag_leaf tag_branch : String)
    (input : List T) :
    MerkleTree.buildRust tag_leaf tag_branch input =
      some (MerkleTree.build tag_leaf tag_branch input) := by
  unfold MerkleTree.buildRust MerkleTree.build
  split
  · rfl
  · next hne =>
    rw [buildLoopRustAux_eq]
    have hpos : 0 < (leavesOf tag_leaf input).length := by
      simp only [leavesOf, List.length_map]
      cases input with
      | nil => simp at hne
      | cons a l => simp
    have h1 : (buildLoop tag_branch (leavesOf tag_leaf input)).length = 1 :=
      buildLoop_length tag_branch _ hpos
    obtain ⟨x, hx⟩ := List.length_eq_one.mp h1
    show (some (buildLoop tag_branch (leavesOf tag_leaf input))).bind _ = _
    rw [hx]
    rfl

/-! ## Characterization of the search path -/

/-- What a successful node search returns, relative to the accumulated
path `path0`: the final path extends the accumulator by the directions of
a walk from `node` down to the matched node, paired step-for-step with the
hex hashes of the walked-through strict ancestors, no step is a `Root`
step, and the matched node's payload satisfies the predicate. -/
def SearchSpec (pred : T → Bool) (node : MerkleNode T) (path0 : TraversePath)
    (res : MerkleNode T × TraversePath) : Prop :=
  ∃ dirs anc d,
    res.2.directions = path0.directions ++ dirs ∧
    res.2.hashes = path0.hashes ++ anc.map (fun a => hexEncode a.hash) ∧
    ancestorsAlong node dirs = some anc ∧
    follow node dirs = some res.1 ∧
    NodeDirection.Root ∉ dirs ∧
    anc.length = dirs.length ∧
    res.1.user_data = some d ∧ pred d = true

/-- A search that succeeds at the node itself (empty walk) meets the
specification. -/
theorem searchSpec_here (pred : T → Bool) (node : MerkleNode T)
    (path0 : TraversePath) (d : T) (hud : node.user_data = some d)
    (hp : pred d = true) :
    SearchSpec pred node path0 (node, ⟨path0.hashes, path0.directions⟩) :=
  ⟨[], [], d, by simp, by simp, rfl, by simp [follow], by simp, by simp,
    hud, hp⟩

/-- Extending a successful search on a child by the step from its branch
parent meets the specification for the parent. -/
theorem searchSpec_step (pred : T → Bool) (h : List Nat)
    (l r : MerkleNode T) (ud : Option T) (path0 : TraversePath)
    (res : MerkleNode T × TraversePath) (dir : NodeDirection)
    (c : MerkleNode T)
    (hchild : (MerkleNode.branch h l r ud).child dir = some c)
    (hdir : dir ≠ NodeDirection.Root)
    (hspec : SearchSpec pred c (path0.add_step (hexEncode h) dir) res) :
    SearchSpec pred (.branch h l r ud) path0 res := by
  obtain ⟨dirs, anc, d, hdirs, hhashes, hanc, hfol, hroot, hlen, hud, hp⟩ :=
    hspec
  refine ⟨dir :: dirs, MerkleNode.branch h l r ud :: anc, d, ?_, ?_, ?_, ?_,
    ?_, by simp [hlen], hud, hp⟩
  · simp only [TraversePath.add_step] at hdirs
    simp [hdirs]
  · simp only [TraversePath.add_step] at hhashes
    simp [hhashes, MerkleNode.hash]
  · simp [ancestorsAlong, hchild, hanc]
  · simp [follow, hchild, hfol]
  · simp only [List.mem_cons, not_or]
    exact ⟨fun hc => hdir hc.symm, hroot⟩

theorem searchNodeWithPath_spec (pred : T → Bool) :
    ∀ (node : MerkleNode T) (path0 : TraversePath)
      (res : MerkleNode T × TraversePath),
      searchNodeWithPath pred node path0 = some res →
      SearchSpec pred node path0 res
  | .leaf h ud, path0, res => by
    intro hres
    cases ud with
    | none => simp [searchNodeWithPath] at hres
    | some d =>
      by_cases hp : pred d = true
      · simp only [searchNodeWithPath, hp, if_true, Option.some.injEq]
          at hres
        rw [← hres]
        exact searchSpec_here pred _ path0 d rfl hp
      · simp [searchNodeWithPath, hp] at hres
  | .branch h l r ud, path0, res => by
    intro hres
    simp only [searchNodeWithPath, MerkleNode.hash] at hres
    have descend :
        (match searchNodeWithPath pred l
            (path0.add_step (hexEncode h) NodeDirection.Left) with
          | some result => some result
          | none => searchNodeWithPath pred r
              (path0.add_step (hexEncode h) NodeDirection.Right)) =
          some res →
        SearchSpec pred (.branch h l r ud) path0 res := by
      intro hm
      cases hl : searchNodeWithPath pred l
          (path0.add_step (hexEncode h) NodeDirection.Left) with
      | some result =>
        rw [hl] at hm
        simp only [Option.some.injEq] at hm
        subst hm
        exact searchSpec_step pred h l r ud path0 result .Left l rfl
          (by simp) (searchNodeWithPath_spec pred l _ result hl)
      | none =>
        rw [hl] at hm
        exact searchSpec_step pred h l r ud path0 res .Right r rfl
          (by simp) (searchNodeWithPath_spec pred r _ res hm)
    cases ud with
    | some d =>
      by_cases hp : pred d = true
      · simp only [hp, if_true, Option.some.injEq] at hres
        rw [← hres]
        exact searchSpec_here pred _ path0 d rfl hp
      · simp only [hp, if_false] at hres
        exact descend hres
    | none => exact descend hres

/-! ## The payload-only-on-leaves invariant of built trees -/

theorem payloadOnlyOnLeaves_new_branch (l r : MerkleNode T) (tag : String)
    (hl : l.payloadOnlyOnLeaves = true) (hr : r.payloadOnlyOnLeaves = true) :
    (MerkleNode.new_branch l r tag).payloadOnlyOnLeaves = true := by
  simp [MerkleNode.new_branch, MerkleNode.payloadOnlyOnLeaves, hl, hr]

theorem payloadOnlyOnLeaves_buildLevel (tag : String) :
    ∀ nodes : List (MerkleNode T),
      (∀ n ∈ nodes, n.payloadOnlyOnLeaves = true) →
      ∀ m ∈ buildLevel tag nodes, m.payloadOnlyOnLeaves = true
  | [], _, m, hm => by simp [buildLevel] at hm
  | [l], hall, m, hm => by
    simp only [buildLevel, List.mem_singleton] at hm
    subst hm
    exact payloadOnlyOnLeaves_new_branch _ _ _ (hall l (by simp))
      (hall l (by simp))
  | l :: r :: rest, hall, m, hm => by
    simp only [buildLevel, List.mem_cons] at hm
    rcases hm with hm | hm
    · subst hm
      exact payloadOnlyOnLeaves_new_branch _ _ _ (hall l (by simp))
        (hall r (by simp))
    · exact payloadOnlyOnLeaves_buildLevel tag rest
        (fun n hn => hall n (by simp [hn])) m hm

theorem payloadOnlyOnLeaves_buildLoopAux (tag : String) :
    ∀ (fuel : Nat) (nodes : List (MerkleNode T)),
      (∀ n ∈ nodes, n.payloadOnlyOnLeaves = true) →
      ∀ m ∈ buildLoopAux tag fuel nodes, m.payloadOnlyOnLeaves = true
  | 0, nodes, hall => hall
  | fuel + 1, nodes, hall => by
    rw [buildLoopAux]
    split
    · exact payloadOnlyOnLeaves_buildLoopAux tag fuel _
        (payloadOnlyOnLeaves_buildLevel tag nodes hall)
    · exact hall

theorem build_root_payloadOnlyOnLeaves [MerkleTreeData T]
    (tag_leaf tag_branch : String) (input : List T) (root : MerkleNode T)
    (hroot :
      (MerkleTree.build tag_leaf tag_branch input).rootNode = some root) :
    root.payloadOnlyOnLeaves = true := by
  unfold MerkleTree.build at hroot
  split at hroot
  · simp at hroot
  · simp only [] at hroot
    obtain ⟨hlt, hget⟩ := List.getElem?_eq_some.mp hroot
    have hmem : root ∈ buildLoop tag_branch (leavesOf tag_leaf input) :=
      hget ▸ List.getElem_mem hlt
    refine payloadOnlyOnLeaves_buildLoopAux tag_branch _ _ ?_ root hmem
    intro n hn
    simp only [leavesOf, List.mem_map] at hn
    obtain ⟨d, _, hd⟩ := hn
    rw [← hd]
    simp [MerkleNode.new_leaf, MerkleNode.payloadOnlyOnLeaves]

theorem child_payloadOnlyOnLeaves (node c : MerkleNode T)
    (d : NodeDirection) (hinv : node.payloadOnlyOnLeaves = true)
    (hc : node.child d = some c) : c.payloadOnlyOnLeaves = true := by
  cases node with
  | leaf h ud => simp [MerkleNode.child] at hc
  | branch h l r ud =>
    simp only [MerkleNode.payloadOnlyOnLeaves, Bool.and_eq_true] at hinv
    cases d with
    | Left =>
      simp only [MerkleNode.child, Option.some.injEq] at hc
      rw [← hc]
      exact hinv.1.2
    | Right =>
      simp only [MerkleNode.child, Option.some.injEq] at hc
      rw [← hc]
      exact hinv.2
    | Root => simp [MerkleNode.child] at hc

theorem follow_payloadOnlyOnLeaves :
    ∀ (dirs : List NodeDirection) (node m : MerkleNode T),
      node.payloadOnlyOnLeaves = true → follow node dirs = some m →
      m.payloadOnlyOnLeaves = true
  | [], node, m, hinv, hf => by
    simp only [follow, Option.some.injEq] at hf
    rw [← hf]
    exact hinv
  | d :: ds, node, m, hinv, hf => by
    simp only [follow] at hf
    cases hc : node.child d with
    | none => rw [hc] at hf; simp at hf
    | some c =>
      rw [hc] at hf
      simp only [Option.some_bind] at hf
      exact follow_payloadOnlyOnLeaves ds c m
        (child_payloadOnlyOnLeaves node c d hinv hc) hf

theorem payload_node_is_leaf (node : MerkleNode T) (d : T)
    (hinv : node.payloadOnlyOnLeaves = true)
    (hud : node.user_data = some d) :
    node.left = none ∧ node.right = none := by
  cases node with
  | leaf h ud => simp [MerkleNode.left, MerkleNode.right]
  | branch h l r ud =>
    simp only [MerkleNode.user_data] at hud
    rw [hud] at hinv
    simp [MerkleNode.payloadOnlyOnLeaves] at hinv

/-! ## The stack walk is the recorded preorder -/

theorem iterateTreeGo_spec (map_fn : TraverseStep T → String) :
    ∀ (stack : List (TraverseStep T)) (output : List String),
      iterateTreeGo map_fn stack output =
        output ++ ((stack.map fun s =>
          preorderSteps s.parent_node s.current_node s.level
            s.direction).flatten).map map_fn := by
  intro stack output
  induction stack, output using iterateTreeGo.induct map_fn with
  | case1 output => simp [iterateTreeGo]
  | case2 step rest output ih =>
    rw [iterateTreeGo, ih]
    obtain ⟨p, n, lvl, dir⟩ := step
    cases n with
    | leaf h d =>
      simp [pushChildren, preorderSteps]
    | branch h l r d =>
      simp [pushChildren, preorderSteps, List.map_append, List.append_assoc]

/-! ## Small concrete nodes for witnesses -/

/-- The leaf node `build` creates for the record (1,1111). -/
def leafNodeB1 : MerkleNode UserItem_B := .leaf leafHashB1 (some ⟨1, 1111⟩)

/-- The leaf node `build` creates for the record (2,2222). -/
def leafNodeB2 : MerkleNode UserItem_B := .leaf leafHashB2 (some ⟨2, 2222⟩)

/-- The root node of `treeB2`. -/
def rootNodeB2 : MerkleNode UserItem_B :=
  .branch rootHashB2 leafNodeB1 leafNodeB2 none

/-- A content-free leaf node (cheap build-level test data). -/
def tinyLeafA : MerkleNode UserItem_B := .leaf [1] none

/-- A content-free leaf node (cheap build-level test data). -/
def tinyLeafB : MerkleNode UserItem_B := .leaf [2] none

/-- A content-free leaf node (cheap build-level test data). -/
def tinyLeafC : MerkleNode UserItem_B := .leaf [3] none

/-! ## The claims -/

/-- Claim C2: building the five proof-of-reserve records with the
documented tags yields root hex
e752d40ca9a0626be5fea078ef35216a9c50554934a54dfbe2eb60195af66c85, and
searching for the record with id 3 yields exactly the documented
three-step path (root hash with Left, then fafe4e… with Right, then
d185af… with Left). -/
theorem claim_C2 :
    treeB.root =
      some "e752d40ca9a0626be5fea078ef35216a9c50554934a54dfbe2eb60195af66c85" ∧
    (treeB.search_with_path fun u => u.id == 3).map
        (fun r => (r.2.hashes, r.2.directions)) =
      some
        (["e752d40ca9a0626be5fea078ef35216a9c50554934a54dfbe2eb60195af66c85",
          "fafe4ecc00e37d340d72f581fbbda4e179ad24bdc2f45713dcc2a38ebfc30439",
          "d185af244042b0fecba7ee16c9933d73b10c5482104538274dd777b6b120eae1"],
         [NodeDirection.Left, NodeDirection.Right, NodeDirection.Left]) :=
  ⟨by decide, by decide⟩

/-- Claim C3: `tagged_hash(tag, input)` is SHA-256 of
SHA-256(tag) ‖ SHA-256(tag) ‖ input for every tag and byte input (a total
pure function of its two arguments), and the fixed test vector for
("Bitcoin_Transaction", "aaa") holds. -/
theorem claim_C3 :
    (∀ (tag : String) (input : List Nat),
      tagged_hash tag input =
        Sha256.sha256 (Sha256.sha256 (strBytes tag) ++
          Sha256.sha256 (strBytes tag) ++ input)) ∧
    hexEncode (tagged_hash "Bitcoin_Transaction" (strBytes "aaa")) =
      "d2d838724571ff750eb7f498a667c32f522efae2b403eae6f678207ac6f978de" :=
  ⟨fun _ _ => rfl, by decide⟩

/-- Claim C4, counterexample: for the single record (1,1111) under the
proof-of-reserve tags, the built root hash is the LEAF hash of the
record, and that differs from the claimed branch hash of the leaf paired
with a duplicate of itself. -/
theorem claim_C4_counterexample :
    (MerkleTree.build "ProofOfReserve_Leaf" "ProofOfReserve_Branch"
        [(⟨1, 1111⟩ : UserItem_B)]).root = some (hexEncode leafHashB1) ∧
    hexEncode leafHashB1 ≠
      hexEncode (tagged_hash "ProofOfReserve_Branch"
        (leafHashB1 ++ leafHashB1)) :=
  ⟨by decide, by decide⟩

/-- Claim C4 (amended): every level-reduction step inside the build loop
truly pairs — a final odd node is paired with a duplicate of itself
(`new_branch(node, node, tag)`), never promoted unchanged — but the loop
only runs while more than one node remains, so for a single-record input
the root hash is the leaf hash `tagged_hash(leaf_tag, record.serialize())`
itself, not a branch hash. -/
theorem claim_C4_amended {T : Type} [MerkleTreeData T] (tag tl tb : String)
    (n a b : MerkleNode T) (rest : List (MerkleNode T)) (x : T) :
    buildLevel tag [n] = [MerkleNode.new_branch n n tag] ∧
    buildLevel tag (a :: b :: rest) =
      MerkleNode.new_branch a b tag :: buildLevel tag rest ∧
    (MerkleTree.build tl tb [x]).root =
      some (hexEncode (tagged_hash tl (serialize x))) :=
  ⟨rfl, rfl, rfl⟩

/-- Claim C6: building from an empty record list yields a tree with no
root and no error, and reads on that tree report absence: `root()` is
`None` and `search_with_path` is `None` for every predicate. -/
theorem claim_C6 {T : Type} [MerkleTreeData T] (tag_leaf tag_branch : String)
    (pred : T → Bool) :
    (MerkleTree.build tag_leaf tag_branch ([] : List T)).rootNode = none ∧
    (MerkleTree.build tag_leaf tag_branch ([] : List T)).root = none ∧
    (MerkleTree.build tag_leaf tag_branch ([] : List T)).search_with_path
        pred = none :=
  ⟨rfl, rfl, rfl⟩

/-- Claim C7: the shared stack traversal visits exactly the recursive
preorder — each node before its children, left child before right —
recording each node's parent, its depth (root at 0) and the direction
from its parent (`Root` only for the root step), and an empty tree
produces no visited nodes. -/
theorem claim_C7 {T : Type} (t : MerkleTree T)
    (map_fn : TraverseStep T → String) :
    t.iterate_tree map_fn =
      t.rootNode.map
        (fun root => (preorderSteps none root 0 .Root).map map_fn) ∧
    (MerkleTree.mk none).iterate_tree map_fn = none := by
  refine ⟨?_, rfl⟩
  unfold MerkleTree.iterate_tree
  cases t.rootNode with
  | none => rfl
  | some root =>
    show some (iterateTreeGo map_fn [⟨none, root, 0, .Root⟩] []) =
      some ((preorderSteps none root 0 .Root).map map_fn)
    rw [iterateTreeGo_spec]
    simp

/-- Claim C8: `truncate_middle` returns the string unchanged when it fits
in `max_len`; otherwise it returns the first ⌊max_len/2⌋ characters, the
literal "...", and the last max_len − ⌊max_len/2⌋ characters, with total
length max_len + 3 and no index underflow, and the documented example for
the alphabet at max_len 10 holds. -/
theorem claim_C8 :
    (∀ (s : List Char) (max_len : Nat),
      (s.length ≤ max_len → truncate_middle s max_len = s) ∧
      (max_len < s.length →
        truncate_middle s max_len =
          s.take (max_len / 2) ++ "...".data ++
            s.drop (s.length - (max_len - max_len / 2)) ∧
        (truncate_middle s max_len).length = max_len + 3 ∧
        max_len - max_len / 2 ≤ s.length ∧ max_len / 2 ≤ s.length)) ∧
    truncate_middle "abcdefghijklmnopqrstuvwxyz".data 10 =
      "abcde...vwxyz".data := by
  constructor
  · intro s max_len
    constructor
    · intro hle
      simp [truncate_middle, hle]
    · intro hgt
      have hnle : ¬s.length ≤ max_len := by omega
      have hdots : ("...".data).length = 3 := rfl
      refine ⟨by simp [truncate_middle, hnle], ?_, by omega, by omega⟩
      simp only [truncate_middle, hnle, if_false, List.length_append,
        List.length_take, List.length_drop, hdots]
      omega
  · decide

/-- Claim C8, witness: both branches discharged concretely — the
26-character alphabet against max_len 10 (truncating) and against
max_len 30 (unchanged). -/
theorem claim_C8_witness :
    (truncate_middle "abcdefghijklmnopqrstuvwxyz".data 10 =
      "abcdefghijklmnopqrstuvwxyz".data.take (10 / 2) ++ "...".data ++
        "abcdefghijklmnopqrstuvwxyz".data.drop
          ("abcdefghijklmnopqrstuvwxyz".data.length - (10 - 10 / 2)) ∧
    (truncate_middle "abcdefghijklmnopqrstuvwxyz".data 10).length = 10 + 3 ∧
    10 - 10 / 2 ≤ "abcdefghijklmnopqrstuvwxyz".data.length ∧
    10 / 2 ≤ "abcdefghijklmnopqrstuvwxyz".data.length) ∧
    truncate_middle "abcdefghijklmnopqrstuvwxyz".data 30 =
      "abcdefghijklmnopqrstuvwxyz".data :=
  ⟨(claim_C8.1 "abcdefghijklmnopqrstuvwxyz".data 10).2 (by decide),
   (claim_C8.1 "abcdefghijklmnopqrstuvwxyz".data 30).1 (by decide)⟩

/-- Claim C9: `build` is total on every input — the chunk pairing's panic
arm is unreachable (every chunk has one or two nodes), each level pass on
n > 1 nodes yields ⌈n/2⌉ < n nodes so the loop terminates, the final
level of a non-empty input has exactly one node so the root indexing is
in bounds, and the panic-explicit build equals the total build. -/
theorem claim_C9 {T : Type} [MerkleTreeData T] (tag tl tb : String)
    (nodes : List (MerkleNode T)) (input : List T) :
    buildLevelRust tag nodes = some (buildLevel tag nodes) ∧
    (1 < nodes.length →
      (buildLevel tag nodes).length = (nodes.length + 1) / 2 ∧
      (buildLevel tag nodes).length < nodes.length) ∧
    (input ≠ [] → (buildLoop tb (leavesOf tl input)).length = 1) ∧
    MerkleTree.buildRust tl tb input = some (MerkleTree.build tl tb input) := by
  refine ⟨buildLevelRust_eq tag nodes, ?_, ?_, buildRust_eq tl tb input⟩
  · intro hgt
    have h := length_buildLevel tag nodes
    exact ⟨h, by omega⟩
  · intro hne
    refine buildLoop_length tb _ ?_
    simp only [leavesOf, List.length_map]
    cases input with
    | nil => simp at hne
    | cons a l => simp

/-- Claim C9, witness: the totality facts instantiated on a concrete
three-node level and a concrete one-record input. -/
theorem claim_C9_witness :
    buildLevelRust "t" [tinyLeafA, tinyLeafB, tinyLeafC] =
      some (buildLevel "t" [tinyLeafA, tinyLeafB, tinyLeafC]) ∧
    ((buildLevel "t" [tinyLeafA, tinyLeafB, tinyLeafC]).length =
      ([tinyLeafA, tinyLeafB, tinyLeafC].length + 1) / 2 ∧
     (buildLevel "t" [tinyLeafA, tinyLeafB, tinyLeafC]).length <
      [tinyLeafA, tinyLeafB, tinyLeafC].length) ∧
    (buildLoop "ProofOfReserve_Branch"
      (leavesOf "ProofOfReserve_Leaf" [(⟨1, 1111⟩ : UserItem_B)])).length
      = 1 ∧
    MerkleTree.buildRust "ProofOfReserve_Leaf" "ProofOfReserve_Branch"
        [(⟨1, 1111⟩ : UserItem_B)] =
      some (MerkleTree.build "ProofOfReserve_Leaf" "ProofOfReserve_Branch"
        [⟨1, 1111⟩]) := by
  have h := claim_C9 "t" "ProofOfReserve_Leaf" "ProofOfReserve_Branch"
    [tinyLeafA, tinyLeafB, tinyLeafC] [(⟨1, 1111⟩ : UserItem_B)]
  exact ⟨h.1, h.2.1 (by decide), h.2.2.1 (by decide), h.2.2.2⟩

/-- The path the search returns for the record (1,1111) in `treeB2`. -/
def pathB1 : TraversePath := ⟨[hexEncode rootHashB2], [NodeDirection.Left]⟩

/-- The path the search returns for the record (2,2222) in `treeB2`. -/
def pathB2 : TraversePath := ⟨[hexEncode rootHashB2], [NodeDirection.Right]⟩

/-- Claim C5: whenever search succeeds, the path has as many steps as the
matched leaf's depth (its directions walk from the root exactly to the
matched node), the hashes are exactly the strict ancestors' hashes in
root-to-target order (the matched node's own hash excluded), each paired
with the direction taken from that ancestor, and no step carries the
Root direction. -/
theorem claim_C5 {T : Type} (t : MerkleTree T) (pred : T → Bool)
    (node : MerkleNode T) (path : TraversePath)
    (hs : t.search_with_path pred = some (node, path)) :
    ∃ root, t.rootNode = some root ∧
      path.hashes.length = path.directions.length ∧
      NodeDirection.Root ∉ path.directions ∧
      follow root path.directions = some node ∧
      ∃ anc, ancestorsAlong root path.directions = some anc ∧
        path.hashes = anc.map fun a => hexEncode a.hash := by
  unfold MerkleTree.search_with_path at hs
  cases hr : t.rootNode with
  | none => rw [hr] at hs; exact Option.noConfusion hs
  | some root =>
    rw [hr] at hs
    obtain ⟨dirs, anc, d, hdirs, hhashes, hanc, hfol, hnoroot, hlen, _, _⟩ :=
      searchNodeWithPath_spec pred root TraversePath.new (node, path) hs
    have hdirs' : path.directions = [] ++ dirs := hdirs
    have hhashes' : path.hashes =
      [] ++ anc.map (fun a => hexEncode a.hash) := hhashes
    have hfol' : follow root dirs = some node := hfol
    simp only [List.nil_append] at hdirs' hhashes'
    refine ⟨root, rfl, ?_, ?_, ?_, anc, ?_, hhashes'⟩
    · rw [hdirs', hhashes']
      simp [hlen]
    · rw [hdirs']
      exact hnoroot
    · rw [hdirs']
      exact hfol'
    · rw [hdirs']
      exact hanc

/-- Claim C5, witness: instantiated on the two-record tree with the
predicate matching id 2. -/
theorem claim_C5_witness :
    ∃ root, treeB2.rootNode = some root ∧
      pathB2.hashes.length = pathB2.directions.length ∧
      NodeDirection.Root ∉ pathB2.directions ∧
      follow root pathB2.directions = some leafNodeB2 ∧
      ∃ anc, ancestorsAlong root pathB2.directions = some anc ∧
        pathB2.hashes = anc.map fun a => hexEncode a.hash :=
  claim_C5 treeB2 (fun u => u.id == 2) leafNodeB2 pathB2 (by decide)

/-- Claim C1 (amended): a successful search returns a path with exactly
one step per level of the matched leaf's depth (the directions walk from
the root precisely to that leaf), and the listed hashes are the strict
ancestors' OWN hashes in root-to-target order — so the tree's root hash
is reproduced exactly as the path's FIRST listed hash whenever the path
is non-empty, rather than by bottom-up sibling replay (the listed hashes
are ancestors, not siblings). -/
theorem claim_C1_amended {T : Type} (t : MerkleTree T) (pred : T → Bool)
    (node : MerkleNode T) (path : TraversePath) (root : MerkleNode T)
    (hs : t.search_with_path pred = some (node, path))
    (hr : t.rootNode = some root) :
    path.hashes.length = path.directions.length ∧
    follow root path.directions = some node ∧
    (∃ anc, ancestorsAlong root path.directions = some anc ∧
      path.hashes = anc.map fun a => hexEncode a.hash) ∧
    (path.directions ≠ [] →
      path.hashes.head? = some (hexEncode root.hash)) := by
  unfold MerkleTree.search_with_path at hs
  rw [hr] at hs
  obtain ⟨dirs, anc, d, hdirs, hhashes, hanc, hfol, _, hlen, _, _⟩ :=
    searchNodeWithPath_spec pred root TraversePath.new (node, path) hs
  have hdirs' : path.directions = [] ++ dirs := hdirs
  have hhashes' : path.hashes =
    [] ++ anc.map (fun a => hexEncode a.hash) := hhashes
  have hfol' : follow root dirs = some node := hfol
  simp only [List.nil_append] at hdirs' hhashes'
  refine ⟨?_, ?_, ⟨anc, ?_, hhashes'⟩, ?_⟩
  · rw [hdirs', hhashes']
    simp [hlen]
  · rw [hdirs']
    exact hfol'
  · rw [hdirs']
    exact hanc
  · intro hne
    rw [hdirs'] at hne
    cases hd : dirs with
    | nil => exact absurd hd hne
    | cons d0 ds =>
      rw [hd] at hanc
      simp only [ancestorsAlong] at hanc
      cases hc : root.child d0 with
      | none => rw [hc] at hanc; exact Option.noConfusion hanc
      | some c =>
        rw [hc] at hanc
        simp only [Option.some_bind] at hanc
        cases ha : ancestorsAlong c ds with
        | none => rw [ha] at hanc; exact Option.noConfusion hanc
        | some rest =>
          rw [ha] at hanc
          simp only [Option.map_some', Option.some.injEq] at hanc
          rw [hhashes', ← hanc]
          simp

/-- Claim C1, witness: the amended property instantiated on the
two-record tree with the predicate matching id 1. -/
theorem claim_C1_witness :
    pathB1.hashes.length = pathB1.directions.length ∧
    follow rootNodeB2 pathB1.directions = some leafNodeB1 ∧
    (∃ anc, ancestorsAlong rootNodeB2 pathB1.directions = some anc ∧
      pathB1.hashes = anc.map fun a => hexEncode a.hash) ∧
    (pathB1.directions ≠ [] →
      pathB1.hashes.head? = some (hexEncode rootNodeB2.hash)) :=
  claim_C1_amended treeB2 (fun u => u.id == 1) leafNodeB1 pathB1 rootNodeB2
    (by decide) (by decide)

/-- Claim C1, counterexample: on the two-record tree the search path for
the record (1,1111) is [(root-hex, Left)] — the listed hash is the root's
OWN hash, not a sibling hash — and the claimed replay (hash the leaf,
then combine with each listed hash under the branch tag, in either
reading of the direction code) does not reproduce the root hash. -/
theorem claim_C1_counterexample :
    (treeB2.search_with_path fun u => u.id == 1).map
        (fun r => r.2.to_vec) = some [(hexEncode rootHashB2, 0)] ∧
    treeB2.root = some (hexEncode rootHashB2) ∧
    replayPath "ProofOfReserve_Branch" leafHashB1
        [(hexEncode rootHashB2, 0)] ≠ rootHashB2 ∧
    replayPathSwapped "ProofOfReserve_Branch" leafHashB1
        [(hexEncode rootHashB2, 0)] ≠ rootHashB2 :=
  ⟨by decide, by decide, by decide, by decide⟩

/-- Claim C10: a successful search always returns a node carrying a
payload on which the predicate holds — the predicate is applied only to
payloads, so never to a payload-free node — and on trees produced by
`build` the matched node is a leaf (no children). -/
theorem claim_C10 {T : Type} [MerkleTreeData T] (tl tb : String)
    (input : List T) (pred : T → Bool) (node : MerkleNode T)
    (path : TraversePath) :
    (∀ t : MerkleTree T, t.search_with_path pred = some (node, path) →
      ∃ d, node.user_data = some d ∧ pred d = true) ∧
    ((MerkleTree.build tl tb input).search_with_path pred =
        some (node, path) →
      node.left = none ∧ node.right = none) := by
  have main : ∀ t : MerkleTree T,
      t.search_with_path pred = some (node, path) →
      ∃ root, t.rootNode = some root ∧
        ∃ dirs, follow root dirs = some node ∧
          ∃ d, node.user_data = some d ∧ pred d = true := by
    intro t hs
    unfold MerkleTree.search_with_path at hs
    cases hr : t.rootNode with
    | none => rw [hr] at hs; exact Option.noConfusion hs
    | some root =>
      rw [hr] at hs
      obtain ⟨dirs, anc, d, _, _, _, hfol, _, _, hud, hp⟩ :=
        searchNodeWithPath_spec pred root TraversePath.new (node, path) hs
      exact ⟨root, rfl, dirs, hfol, d, hud, hp⟩
  constructor
  · intro t hs
    obtain ⟨_, _, _, _, d, hud, hp⟩ := main t hs
    exact ⟨d, hud, hp⟩
  · intro hs
    obtain ⟨root, hr, dirs, hfol, d, hud, _⟩ := main _ hs
    have hinv := build_root_payloadOnlyOnLeaves tl tb input root hr
    exact payload_node_is_leaf node d
      (follow_payloadOnlyOnLeaves dirs root node hinv hfol) hud

/-- Claim C10, witness: instantiated on the two-record tree with the
predicate matching balance 2222. -/
theorem claim_C10_witness :
    (∃ d, leafNodeB2.user_data = some d ∧
      (fun u : UserItem_B => u.balance == 2222) d = true) ∧
    (leafNodeB2.left = none ∧ leafNodeB2.right = none) := by
  have h := claim_C10 "ProofOfReserve_Leaf" "ProofOfReserve_Branch"
    [(⟨1, 1111⟩ : UserItem_B), ⟨2, 2222⟩] (fun u => u.balance == 2222)
    leafNodeB2 pathB2
  exact ⟨h.1 treeB2 (by decide), h.2 (by decide)⟩

end MerkleTreeLib
